import Mathlib

/-!
Verification development for the `@flapili/form` Vue + Zod form library
(`src/index.ts`).  The library has two near-duplicate controllers:

* `useForm` (sync variant): clones `initialData` via
  `JSON.parse(JSON.stringify(...))` into a controller-owned ref, derives
  `parseResult = schema.safeParse(data)` reactively, and exposes
  `getErrors` / `submit` / `reset` / `toggleDisplayErrors`.
* `useFormComponent` (async variant): holds a caller-owned reactive
  object, re-validates with `schema.safeParseAsync` on every deep change
  (status parsing → valid | invalid), and on `submit` re-runs a fresh
  synchronous `safeParse`, throwing the validation error on failure.

The shallow embedding below translates those functions to pure Lean
definitions over a JSON-like value type.  Validators (`schema.safeParse`)
are modelled as arbitrary pure functions `Value → ParseResult α`, which is
exactly the interface the library consumes.
-/

namespace Form

/-- JSON-like values: the data the form controllers manipulate.  The sync
variant's deep clone is a `JSON.stringify`/`JSON.parse` round trip, which is
the identity exactly on this JSON-safe fragment. -/
inductive Value where
  | vNull : Value
  | vBool : Bool → Value
  | vNum : Int → Value
  | vStr : String → Value
  | vArr : List Value → Value
  | vObj : List (String × Value) → Value

mutual

/-- Embeds `deepClone` from `src/index.ts` (`JSON.parse(JSON.stringify(obj))`)
restricted to JSON-safe values, where the round trip is a structural copy. -/
def deepClone : Value → Value
  | .vNull => .vNull
  | .vBool b => .vBool b
  | .vNum n => .vNum n
  | .vStr s => .vStr s
  | .vArr items => .vArr (deepCloneList items)
  | .vObj fields => .vObj (deepCloneFields fields)

/-- Clone of each element of a JSON array. -/
def deepCloneList : List Value → List Value
  | [] => []
  | v :: rest => deepClone v :: deepCloneList rest

/-- Clone of each field of a JSON object, keeping key order. -/
def deepCloneFields : List (String × Value) → List (String × Value)
  | [] => []
  | (k, v) :: rest => (k, deepClone v) :: deepCloneFields rest

end

mutual

theorem deepClone_id : (v : Value) → deepClone v = v
  | .vNull => rfl
  | .vBool _ => rfl
  | .vNum _ => rfl
  | .vStr _ => rfl
  | .vArr items => by rw [deepClone, deepCloneList_id items]
  | .vObj fields => by rw [deepClone, deepCloneFields_id fields]

theorem deepCloneList_id : (l : List Value) → deepCloneList l = l
  | [] => rfl
  | v :: rest => by rw [deepCloneList, deepClone_id v, deepCloneList_id rest]

theorem deepCloneFields_id : (l : List (String × Value)) → deepCloneFields l = l
  | [] => rfl
  | (k, v) :: rest => by rw [deepCloneFields, deepClone_id v, deepCloneFields_id rest]

end

/-- One segment of a Zod issue path: a string key or a numeric index
(`(string | number)[]` in the source). -/
inductive PathSeg where
  | str : String → PathSeg
  | num : Int → PathSeg
deriving DecidableEq

/-- String conversion applied by JavaScript `Array.prototype.join`. -/
def PathSeg.render : PathSeg → String
  | .str s => s
  | .num n => toString n

/-- Embeds `path.join('.')` as used on both issue paths and query paths. -/
def joinPath (path : List PathSeg) : String :=
  String.intercalate "." (path.map PathSeg.render)

/-- A Zod issue: a path plus a message (further metadata is irrelevant to
the controllers, which only filter on `path`). -/
structure Issue where
  path : List PathSeg
  message : String
deriving DecidableEq

/-- Result of `schema.safeParse`: success with transformed output, or
failure with the ordered list `error.errors` (alias `error.issues`). -/
inductive ParseResult (α : Type) where
  | success : α → ParseResult α
  | failure : List Issue → ParseResult α

/-- Embeds the `.success` discriminant of a Zod safe-parse result. -/
def ParseResult.isSuccess {α : Type} : ParseResult α → Bool
  | .success _ => true
  | .failure _ => false

/-! ### Sync variant (`useForm`) -/

/-- Mutable state owned by the sync controller: the cloned `data` ref, the
`displayErrors` ref and the `changedAt` ref.  (`parseResult`, `isValid` and
`hasChanged` are computed, hence functions below, not state.) -/
structure SyncState where
  data : Value
  displayErrors : Bool
  changedAt : Option Nat

/-- Embeds the computed `parseResult = schema.safeParse(data.value)`. -/
def parseResult {α : Type} (schema : Value → ParseResult α) (st : SyncState) : ParseResult α :=
  schema st.data

/-- Embeds the computed `isValid = parseResult.value.success`. -/
def isValid {α : Type} (schema : Value → ParseResult α) (st : SyncState) : Bool :=
  (parseResult schema st).isSuccess

/-- Embeds the computed `hasChanged = changedAt.value !== null`. -/
def hasChanged (st : SyncState) : Bool :=
  st.changedAt.isSome

/-- Embeds `getErrors` of `useForm`: empty on success, else the issues whose
dot-joined path equals the dot-joined query path. -/
def getErrors {α : Type} (schema : Value → ParseResult α) (st : SyncState)
    (path : List PathSeg) : List Issue :=
  match schema st.data with
  | .success _ => []
  | .failure issues => issues.filter (fun e => joinPath e.path == joinPath path)

/-- Embeds `submit` of `useForm`.  The second component records the call to
`onSubmit`: `some out` means `onSubmit(res.data)` was invoked with `out`,
`none` means it was not invoked.  The source has no `throw` and returns
`void`, so the embedding is a total function with no error component. -/
def submit {α : Type} (schema : Value → ParseResult α) (st : SyncState) :
    SyncState × Option α :=
  match schema st.data with
  | .success out => (st, some out)
  | .failure _ => ({ st with displayErrors := true }, none)

/-- Embeds `reset` of `useForm`: `data.value = deepClone(initialData);
changedAt.value = null; displayErrors.value = false`. -/
def resetS (initialData : Value) (_st : SyncState) : SyncState :=
  { data := deepClone initialData, displayErrors := false, changedAt := none }

/-- Embeds `toggleDisplayErrors` of `useForm`. -/
def toggleDisplayErrors (st : SyncState) : SyncState :=
  { st with displayErrors := !st.displayErrors }

/-- The caller's `initialData` object alongside the controller state: used
to express that controller operations never touch the caller's object. -/
structure SyncWorld where
  callerInit : Value
  ctrl : SyncState

/-- Embeds construction by `useForm`: `data = ref(deepClone(initialData))`,
`displayErrors = ref(false)`, `changedAt = ref(null)`.  The caller's
`initialData` lives on unchanged next to the controller's fresh clone. -/
def mkSync (initialData : Value) : SyncWorld :=
  { callerInit := initialData
    ctrl := { data := deepClone initialData, displayErrors := false, changedAt := none } }

/-- Operations a caller can perform on the sync controller: mutate the
controller-owned data ref, submit, reset, toggle error display. -/
inductive SyncOp where
  | setData : Value → SyncOp
  | doSubmit : SyncOp
  | doReset : SyncOp
  | doToggle : SyncOp

/-- One controller operation.  Every branch writes only to the controller's
own refs, mirroring the source, where `data` is a fresh ref seeded with
`deepClone(initialData)` and `reset` re-reads the captured `initialData`. -/
def runOp {α : Type} (schema : Value → ParseResult α) (w : SyncWorld) : SyncOp → SyncWorld
  | .setData v => { w with ctrl := { w.ctrl with data := v } }
  | .doSubmit => { w with ctrl := (submit schema w.ctrl).1 }
  | .doReset => { w with ctrl := resetS w.callerInit w.ctrl }
  | .doToggle => { w with ctrl := toggleDisplayErrors w.ctrl }

/-- A sequence of controller operations, run left to right. -/
def runOps {α : Type} (schema : Value → ParseResult α) (w : SyncWorld)
    (ops : List SyncOp) : SyncWorld :=
  ops.foldl (runOp schema) w

theorem runOp_callerInit {α : Type} (schema : Value → ParseResult α) (w : SyncWorld)
    (op : SyncOp) : (runOp schema w op).callerInit = w.callerInit := by
  cases op <;> rfl

theorem runOps_callerInit {α : Type} (schema : Value → ParseResult α) (ops : List SyncOp)
    (w : SyncWorld) : (runOps schema w ops).callerInit = w.callerInit := by
  induction ops generalizing w with
  | nil => rfl
  | cons op rest ih => rw [runOps, List.foldl_cons, ← runOps, ih, runOp_callerInit]

/-! ### Async variant (`useFormComponent`)

The async variant's FormData is a caller-owned reactive object, embedded as
a key-ordered field list. -/

/-- A JavaScript object as a key-ordered field list (the `Reactive<Input>`
the caller hands to `useFormComponent`). -/
abbrev Obj := List (String × Value)

/-- Keys of an object, in order. -/
def keys (o : Obj) : List String := o.map Prod.fst

/-- Property read `o[k]`: the value at the first matching key. -/
def lookupKey : Obj → String → Option Value
  | [], _ => none
  | (k', v) :: rest, k => if k' = k then some v else lookupKey rest k

/-- Property write `o[k] = v` on an object: updates the existing key in
place (JS objects have unique keys), else appends the key at the end. -/
def setKey : Obj → String → Value → Obj
  | [], k, v => [(k, v)]
  | (k', w) :: rest, k, v =>
    if k' = k then (k, v) :: rest else (k', w) :: setKey rest k v

/-- Embeds `Object.assign(target, src)`: each own property of `src` is
written onto `target` in order, without replacing the target reference. -/
def objAssign (target src : Obj) : Obj :=
  src.foldl (fun acc p => setKey acc p.1 p.2) target

/-- Options recognised by `useFormComponent` at construction (the external
`displayErrors` ref only shares the cell, which the state field models). -/
structure AsyncOptions where
  mutateDisplayErrorsOnError : Bool

/-- State of the async controller: the caller-owned `input` object, the
`parseResult` ref (null until the first `safeParseAsync` resolves), and the
`displayErrors` / `changedAt` refs. -/
structure AsyncState (α : Type) where
  data : Obj
  parseResult : Option (ParseResult α)
  displayErrors : Bool
  changedAt : Option Nat

/-- Embeds `getErrors` of `useFormComponent`: empty while `parseResult` is
null, empty on success, else the dot-joined path filter. -/
def getErrorsC {α : Type} (st : AsyncState α) (path : List PathSeg) : List Issue :=
  match st.parseResult with
  | none => []
  | some (.success _) => []
  | some (.failure issues) => issues.filter (fun e => joinPath e.path == joinPath path)

/-- Embeds `submit` of `useFormComponent`: a fresh synchronous
`schema.safeParse(input)`; on failure it sets `displayErrors` only when
`mutateDisplayErrorsOnError` is set and throws `res.error` (the `.error`
constructor, carrying the issues); on success it returns
`onSubmit(res.data)`. -/
def submitC {α β : Type} (schema : Obj → ParseResult α) (onSubmit : α → β)
    (opts : AsyncOptions) (st : AsyncState α) :
    AsyncState α × Except (List Issue) β :=
  match schema st.data with
  | .failure issues =>
      ({ st with displayErrors := if opts.mutateDisplayErrorsOnError then true else st.displayErrors },
        .error issues)
  | .success out => (st, .ok (onSubmit out))

/-- Embeds `reset` of `useFormComponent`: `changedAt = null;
displayErrors = false; Object.assign(input, initialInput)` where
`initialInput` is the construction-time JSON snapshot. -/
def resetC {α : Type} (initialInput : Obj) (st : AsyncState α) : AsyncState α :=
  { st with
    changedAt := none
    displayErrors := false
    data := objAssign st.data initialInput }

/-! ### Object-assignment lemmas -/

theorem keys_cons (k : String) (v : Value) (o : Obj) :
    keys ((k, v) :: o) = k :: keys o := rfl

theorem mem_keys_cons_iff {k k' : String} {v : Value} {o : Obj} :
    k ∈ keys ((k', v) :: o) ↔ k = k' ∨ k ∈ keys o := by
  rw [keys_cons, List.mem_cons]

theorem lookupKey_eq_none_of_not_mem {o : Obj} {k : String} :
    k ∉ keys o → lookupKey o k = none := by
  induction o with
  | nil => intro _; rfl
  | cons p rest ih =>
    obtain ⟨k', v⟩ := p
    intro h
    have h1 : ¬k' = k := fun hc => h (mem_keys_cons_iff.2 (Or.inl hc.symm))
    have h2 : k ∉ keys rest := fun hc => h (mem_keys_cons_iff.2 (Or.inr hc))
    rw [lookupKey, if_neg h1, ih h2]

theorem lookupKey_setKey_self (o : Obj) (k : String) (v : Value) :
    lookupKey (setKey o k v) k = some v := by
  induction o with
  | nil => simp [setKey, lookupKey]
  | cons p rest ih =>
    obtain ⟨k', w⟩ := p
    by_cases hk : k' = k
    · rw [setKey, if_pos hk, lookupKey, if_pos rfl]
    · rw [setKey, if_neg hk, lookupKey, if_neg hk, ih]

theorem lookupKey_setKey_ne {o : Obj} {k k' : String} (v : Value) (h : k' ≠ k) :
    lookupKey (setKey o k v) k' = lookupKey o k' := by
  have hne : ¬k = k' := fun hc => h hc.symm
  induction o with
  | nil => simp only [setKey, lookupKey, if_neg hne]
  | cons p rest ih =>
    obtain ⟨k'', w⟩ := p
    by_cases hk : k'' = k
    · rw [setKey, if_pos hk, lookupKey, if_neg hne, lookupKey,
        if_neg (show ¬k'' = k' from fun hc => hne (hk.symm.trans hc))]
    · rw [setKey, if_neg hk, lookupKey, lookupKey]
      by_cases hc : k'' = k'
      · rw [if_pos hc, if_pos hc]
      · rw [if_neg hc, if_neg hc, ih]

theorem keys_setKey_of_mem {o : Obj} {k : String} (v : Value) :
    k ∈ keys o → keys (setKey o k v) = keys o := by
  induction o with
  | nil => intro h; simp [keys] at h
  | cons p rest ih =>
    obtain ⟨k', w⟩ := p
    intro h
    by_cases hk : k' = k
    · rw [setKey, if_pos hk, keys_cons, keys_cons, hk]
    · rcases mem_keys_cons_iff.1 h with hc | hc
      · exact absurd hc (fun hcc => hk hcc.symm)
      · rw [setKey, if_neg hk, keys_cons, keys_cons, ih hc]

theorem keys_setKey_of_not_mem {o : Obj} {k : String} (v : Value) :
    k ∉ keys o → keys (setKey o k v) = keys o ++ [k] := by
  induction o with
  | nil => intro _; rfl
  | cons p rest ih =>
    obtain ⟨k', w⟩ := p
    intro h
    have h1 : ¬k' = k := fun hc => h (mem_keys_cons_iff.2 (Or.inl hc.symm))
    have h2 : k ∉ keys rest := fun hc => h (mem_keys_cons_iff.2 (Or.inr hc))
    rw [setKey, if_neg h1, keys_cons, keys_cons, ih h2, List.cons_append]

theorem mem_keys_setKey_self (o : Obj) (k : String) (v : Value) :
    k ∈ keys (setKey o k v) := by
  by_cases h : k ∈ keys o
  · rw [keys_setKey_of_mem v h]; exact h
  · rw [keys_setKey_of_not_mem v h]; simp

theorem mem_keys_setKey_of_mem {o : Obj} {k' : String} (k : String) (v : Value)
    (h : k' ∈ keys o) : k' ∈ keys (setKey o k v) := by
  by_cases hm : k ∈ keys o
  · rw [keys_setKey_of_mem v hm]; exact h
  · rw [keys_setKey_of_not_mem v hm]; exact List.mem_append_left _ h

theorem nodup_keys_setKey {o : Obj} (k : String) (v : Value)
    (h : (keys o).Nodup) : (keys (setKey o k v)).Nodup := by
  by_cases hm : k ∈ keys o
  · rw [keys_setKey_of_mem v hm]; exact h
  · rw [keys_setKey_of_not_mem v hm]
    exact List.Nodup.append h (List.nodup_singleton k)
      (fun a ha hb => hm ((List.mem_singleton.1 hb) ▸ ha))

theorem objAssign_nil (t : Obj) : objAssign t [] = t := rfl

theorem objAssign_cons (t : Obj) (k : String) (v : Value) (s : Obj) :
    objAssign t ((k, v) :: s) = objAssign (setKey t k v) s := rfl

theorem mem_keys_objAssign_of_left {k : String} :
    ∀ (s t : Obj), k ∈ keys t → k ∈ keys (objAssign t s) := by
  intro s
  induction s with
  | nil => intro t h; exact h
  | cons p s' ih =>
    intro t h
    obtain ⟨k', v'⟩ := p
    rw [objAssign_cons]
    exact ih _ (mem_keys_setKey_of_mem k' v' h)

theorem mem_keys_objAssign_of_right {k : String} :
    ∀ (s t : Obj), k ∈ keys s → k ∈ keys (objAssign t s) := by
  intro s
  induction s with
  | nil => intro t h; simp [keys] at h
  | cons p s' ih =>
    intro t h
    obtain ⟨k', v'⟩ := p
    rw [objAssign_cons]
    rcases mem_keys_cons_iff.1 h with hc | hc
    · rw [hc]; exact mem_keys_objAssign_of_left s' _ (mem_keys_setKey_self t k' v')
    · exact ih (setKey t k' v') hc

theorem keys_objAssign_of_subset {s : Obj} :
    ∀ t : Obj, (∀ k ∈ keys s, k ∈ keys t) → keys (objAssign t s) = keys t := by
  induction s with
  | nil => intro t _; rfl
  | cons p s' ih =>
    intro t h
    obtain ⟨k', v'⟩ := p
    have hk' : k' ∈ keys t := h k' (mem_keys_cons_iff.2 (Or.inl rfl))
    rw [objAssign_cons, ih (setKey t k' v')
      (fun k hk => mem_keys_setKey_of_mem k' v' (h k (mem_keys_cons_iff.2 (Or.inr hk)))),
      keys_setKey_of_mem v' hk']

theorem nodup_keys_objAssign {s : Obj} :
    ∀ t : Obj, (keys t).Nodup → (keys (objAssign t s)).Nodup := by
  induction s with
  | nil => intro t h; exact h
  | cons p s' ih =>
    intro t h
    obtain ⟨k', v'⟩ := p
    rw [objAssign_cons]
    exact ih _ (nodup_keys_setKey k' v' h)

/-- The value the last occurrence of `k` in `s` would assign, if any. -/
def lookupLast : Obj → String → Option Value
  | [], _ => none
  | (k', v) :: rest, k =>
    match lookupLast rest k with
    | some w => some w
    | none => if k' = k then some v else none

theorem lookupKey_objAssign (s : Obj) (k : String) :
    ∀ t : Obj, lookupKey (objAssign t s) k =
      match lookupLast s k with
      | some w => some w
      | none => lookupKey t k := by
  induction s with
  | nil => intro t; rfl
  | cons p s' ih =>
    intro t
    obtain ⟨k', v'⟩ := p
    rw [objAssign_cons, ih (setKey t k' v'), lookupLast]
    cases hl : lookupLast s' k with
    | some w => rfl
    | none =>
      by_cases hk : k' = k
      · subst hk
        rw [if_pos rfl]
        exact lookupKey_setKey_self t k' v'
      · rw [if_neg hk]
        exact lookupKey_setKey_ne v' (fun hc => hk hc.symm)

theorem lookupLast_eq_none_of_not_mem {s : Obj} {k : String} :
    k ∉ keys s → lookupLast s k = none := by
  induction s with
  | nil => intro _; rfl
  | cons p rest ih =>
    obtain ⟨k', v⟩ := p
    intro h
    have h1 : ¬k' = k := fun hc => h (mem_keys_cons_iff.2 (Or.inl hc.symm))
    have h2 : k ∉ keys rest := fun hc => h (mem_keys_cons_iff.2 (Or.inr hc))
    rw [lookupLast, ih h2]
    exact if_neg h1

theorem lookupKey_objAssign_of_not_mem {s : Obj} {k : String} (t : Obj)
    (h : k ∉ keys s) : lookupKey (objAssign t s) k = lookupKey t k := by
  rw [lookupKey_objAssign, lookupLast_eq_none_of_not_mem h]

theorem obj_ext : ∀ t₁ t₂ : Obj, keys t₁ = keys t₂ → (keys t₁).Nodup →
    (∀ k, lookupKey t₁ k = lookupKey t₂ k) → t₁ = t₂ := by
  intro t₁
  induction t₁ with
  | nil =>
    intro t₂ hkeys _ _
    cases t₂ with
    | nil => rfl
    | cons q r₂ => simp [keys] at hkeys
  | cons p r₁ ih =>
    intro t₂ hkeys hnd hlook
    obtain ⟨k, v⟩ := p
    cases t₂ with
    | nil => simp [keys] at hkeys
    | cons q r₂ =>
      obtain ⟨k₂, v₂⟩ := q
      rw [keys_cons, keys_cons] at hkeys
      injection hkeys with hk hkr
      subst hk
      have hv : v = v₂ := by
        have hl := hlook k
        rw [lookupKey, if_pos rfl, lookupKey, if_pos rfl] at hl
        exact Option.some.inj hl
      subst hv
      rw [keys_cons, List.nodup_cons] at hnd
      have htail : r₁ = r₂ := by
        refine ih r₂ hkr hnd.2 ?_
        intro k'
        by_cases hk' : k = k'
        · rw [← hk']
          rw [lookupKey_eq_none_of_not_mem hnd.1,
            lookupKey_eq_none_of_not_mem (hkr ▸ hnd.1)]
        · have hl := hlook k'
          rwa [lookupKey, if_neg hk', lookupKey, if_neg hk'] at hl
      rw [htail]

theorem objAssign_idem {t : Obj} (s : Obj) (h : (keys t).Nodup) :
    objAssign (objAssign t s) s = objAssign t s := by
  refine obj_ext _ _ ?_ ?_ ?_
  · exact keys_objAssign_of_subset _ (fun k hk => mem_keys_objAssign_of_right s t hk)
  · exact nodup_keys_objAssign _ (nodup_keys_objAssign _ h)
  · intro k
    rw [lookupKey_objAssign, lookupKey_objAssign]
    cases lookupLast s k with
    | some w => rfl
    | none => rfl

/-! ### Async status state machine

The watcher in `useFormComponent` runs, per deep change (and once
immediately on mount): `status = 'parsing'; parseResult = await
schema.safeParseAsync(v); status = result.success ? 'valid' : 'invalid'`.
The synchronous prefix of the callback is one event; the continuation after
the `await` is another.  In-flight validations are never cancelled, so a
machine state carries the queue of dispatched, not-yet-resolved
validations, each abstracted to its eventual success bit. -/

/-- The `status` ref of `useFormComponent`. -/
inductive Status where
  | parsing : Status
  | valid : Status
  | invalid : Status
deriving DecidableEq

/-- Machine state: current status plus the dispatched validations still in
flight (in dispatch order, each with its eventual outcome). -/
structure AsyncMachine where
  status : Status
  pending : List Bool
deriving DecidableEq

/-- Events: a deep mutation of the data (which is also how the immediate
first watcher run appears) dispatching a validation with eventual outcome
`o`, or the resolution of the `i`-th in-flight validation. -/
inductive AEvent where
  | mutate : Bool → AEvent
  | resolve : Nat → AEvent
deriving DecidableEq

/-- Embeds `status = ref('parsing')`: at mount the status is `parsing` and
no validation has resolved yet. -/
def initMachine : AsyncMachine := { status := .parsing, pending := [] }

/-- One event step.  A mutation runs the watcher's synchronous prefix
(`status = 'parsing'`, dispatch `safeParseAsync`); a resolution runs the
continuation of the chosen in-flight validation (`status = success ?
'valid' : 'invalid'`).  Resolving a non-existent index is a no-op. -/
def astep (m : AsyncMachine) : AEvent → AsyncMachine
  | .mutate o => { status := .parsing, pending := m.pending ++ [o] }
  | .resolve i =>
    match m.pending[i]? with
    | none => m
    | some o => { status := if o then .valid else .invalid, pending := m.pending.eraseIdx i }

/-! ### Concrete sample data used by the witnesses -/

/-- A validator that rejects every input with a single `name` issue. -/
def failingSchema : Value → ParseResult Value :=
  fun _ => .failure [{ path := [PathSeg.str "name"], message := "Name is required" }]

/-- A validator that accepts every input unchanged. -/
def succeedingSchema : Value → ParseResult Value :=
  fun v => .success v

/-- A validator over caller-owned objects that rejects every input. -/
def failingSchemaC : Obj → ParseResult Value :=
  fun _ => .failure [{ path := [PathSeg.str "name"], message := "Name is required" }]

/-- A validator over caller-owned objects that accepts every input. -/
def succeedingSchemaC : Obj → ParseResult Value :=
  fun o => .success (Value.vObj o)

/-- A sample sync controller state. -/
def sampleSyncState : SyncState :=
  { data := Value.vObj [("name", Value.vStr "")], displayErrors := false, changedAt := none }

/-- A sample construction-time snapshot of the async variant's input. -/
def sampleInit : Obj := [("a", Value.vNum 1)]

/-- A sample async controller state whose data gained an extra key `b`
after construction. -/
def sampleAsyncState : AsyncState Value :=
  { data := [("a", Value.vNum 2), ("b", Value.vNum 3)]
    parseResult := none
    displayErrors := false
    changedAt := none }

/-- A sample async state holding a resolved failure. -/
def sampleAsyncFailure : AsyncState Value :=
  { data := []
    parseResult := some (.failure [{ path := [PathSeg.str "a", PathSeg.str "b"], message := "bad" }])
    displayErrors := false
    changedAt := none }

/-- A sample async state holding a resolved success. -/
def sampleAsyncSuccess : AsyncState Value :=
  { data := []
    parseResult := some (.success Value.vNull)
    displayErrors := false
    changedAt := none }

/-! ### Claim theorems -/

/-- C1: in the sync variant, whenever `schema.safeParse` of the current
FormData fails, `submit()` never invokes `onSubmit`, sets DisplayErrors to
true, leaves FormData (and `changedAt`) unchanged, and — the embedding
being a total function into `SyncState × Option α` with no error channel,
mirroring a source body with no `throw` — returns nothing and throws no
exception. -/
theorem c1_sync_submit_invalid {α : Type} (schema : Value → ParseResult α)
    (st : SyncState) (issues : List Issue) (h : schema st.data = .failure issues) :
    (submit schema st).2 = none ∧
    (submit schema st).1.displayErrors = true ∧
    (submit schema st).1.data = st.data ∧
    (submit schema st).1.changedAt = st.changedAt := by
  simp [submit, h]

/-- Witness for C1 at a concrete always-failing validator and state. -/
theorem c1_sync_submit_invalid_witness :
    (submit failingSchema sampleSyncState).2 = none ∧
    (submit failingSchema sampleSyncState).1.displayErrors = true ∧
    (submit failingSchema sampleSyncState).1.data = sampleSyncState.data ∧
    (submit failingSchema sampleSyncState).1.changedAt = sampleSyncState.changedAt :=
  c1_sync_submit_invalid failingSchema sampleSyncState _ rfl

/-- C2: in the async variant, when the fresh `safeParse` of the current
data fails, `submit` raises the validator's error (the `.error` branch,
carrying the issues, so `onSubmit` is never applied), and it assigns
`displayErrors = true` exactly when `mutateDisplayErrorsOnError` was
enabled at construction (otherwise the flag keeps its previous value);
on success it returns `onSubmit(res.data)`. -/
theorem c2_async_submit {α β : Type} (schema : Obj → ParseResult α) (onSubmit : α → β)
    (opts : AsyncOptions) (st : AsyncState α) :
    (∀ issues : List Issue, schema st.data = .failure issues →
        (submitC schema onSubmit opts st).2 = .error issues ∧
        (submitC schema onSubmit opts st).1.data = st.data ∧
        (opts.mutateDisplayErrorsOnError = true →
          (submitC schema onSubmit opts st).1.displayErrors = true) ∧
        (opts.mutateDisplayErrorsOnError = false →
          (submitC schema onSubmit opts st).1.displayErrors = st.displayErrors)) ∧
    (∀ out : α, schema st.data = .success out →
        submitC schema onSubmit opts st = (st, .ok (onSubmit out))) := by
  constructor
  · intro issues h
    refine ⟨?_, ?_, ?_, ?_⟩
    · simp [submitC, h]
    · simp [submitC, h]
    · intro hm; simp [submitC, h, hm]
    · intro hm; simp [submitC, h, hm]
  · intro out h
    simp [submitC, h]

/-- Witness for C2 at concrete validators, with the option disabled. -/
theorem c2_async_submit_witness :
    (submitC failingSchemaC (fun v => v) { mutateDisplayErrorsOnError := false } sampleAsyncState).2
      = Except.error [{ path := [PathSeg.str "name"], message := "Name is required" }] ∧
    (submitC failingSchemaC (fun v => v) { mutateDisplayErrorsOnError := false } sampleAsyncState).1.displayErrors
      = sampleAsyncState.displayErrors ∧
    (submitC succeedingSchemaC (fun v => v) { mutateDisplayErrorsOnError := false } sampleAsyncState)
      = (sampleAsyncState, Except.ok (Value.vObj sampleAsyncState.data)) := by
  have hf := c2_async_submit failingSchemaC (fun v : Value => v)
    { mutateDisplayErrorsOnError := false } sampleAsyncState
  have hs := c2_async_submit succeedingSchemaC (fun v : Value => v)
    { mutateDisplayErrorsOnError := false } sampleAsyncState
  exact ⟨(hf.1 _ rfl).1, (hf.1 _ rfl).2.2.2 rfl, hs.2 _ rfl⟩

/-- C3: for every failing parse result and queried path, `getErrors`
(both variants) returns exactly the filter of the issues by dot-joined
path equality — order-preserving, and with the documented string-join
collision `getErrors('a.b') = getErrors('a','b')`. -/
theorem c3_getErrors_path_filter (α β : Type) :
    (∀ (schema : Value → ParseResult α) (st : SyncState) (issues : List Issue)
        (path : List PathSeg), schema st.data = .failure issues →
        getErrors schema st path
          = issues.filter (fun e => joinPath e.path == joinPath path)) ∧
    (∀ (st : AsyncState β) (issues : List Issue) (path : List PathSeg),
        st.parseResult = some (.failure issues) →
        getErrorsC st path = issues.filter (fun e => joinPath e.path == joinPath path)) ∧
    (∀ (schema : Value → ParseResult α) (st : SyncState),
        getErrors schema st [PathSeg.str "a.b"]
          = getErrors schema st [PathSeg.str "a", PathSeg.str "b"]) ∧
    (∀ st : AsyncState β,
        getErrorsC st [PathSeg.str "a.b"]
          = getErrorsC st [PathSeg.str "a", PathSeg.str "b"]) := by
  have hj : joinPath [PathSeg.str "a.b"] = joinPath [PathSeg.str "a", PathSeg.str "b"] := rfl
  refine ⟨?_, ?_, ?_, ?_⟩
  · intro schema st issues path h
    simp [getErrors, h]
  · intro st issues path h
    simp [getErrorsC, h]
  · intro schema st
    cases h : schema st.data with
    | success out => simp [getErrors, h]
    | failure issues => simp [getErrors, h, hj]
  · intro st
    cases h : st.parseResult with
    | none => simp [getErrorsC, h]
    | some r =>
      cases r with
      | success out => simp [getErrorsC, h]
      | failure issues => simp [getErrorsC, h, hj]

/-- Witness for C3: the collision on a concrete failing async result, and
the filter evaluated on a concrete failing sync parse. -/
theorem c3_getErrors_path_filter_witness :
    getErrorsC sampleAsyncFailure [PathSeg.str "a.b"]
      = getErrorsC sampleAsyncFailure [PathSeg.str "a", PathSeg.str "b"] ∧
    getErrors failingSchema sampleSyncState [PathSeg.str "name"]
      = [{ path := [PathSeg.str "name"], message := "Name is required" }] := by
  have h := c3_getErrors_path_filter Value Value
  refine ⟨h.2.2.2 sampleAsyncFailure, ?_⟩
  rw [h.1 failingSchema sampleSyncState _ _ rfl]
  rfl

/-- C4: `getErrors` returns the empty list whenever the parse result is a
success (both variants), and in the async variant also while no result has
resolved yet (`parseResult` still null). -/
theorem c4_getErrors_empty_on_success (α β : Type) :
    (∀ (schema : Value → ParseResult α) (st : SyncState) (out : α) (path : List PathSeg),
        schema st.data = .success out → getErrors schema st path = []) ∧
    (∀ (st : AsyncState β) (path : List PathSeg),
        st.parseResult = none → getErrorsC st path = []) ∧
    (∀ (st : AsyncState β) (out : β) (path : List PathSeg),
        st.parseResult = some (.success out) → getErrorsC st path = []) := by
  refine ⟨?_, ?_, ?_⟩
  · intro schema st out path h; simp [getErrors, h]
  · intro st path h; simp [getErrorsC, h]
  · intro st out path h; simp [getErrorsC, h]

/-- Witness for C4 at a concrete succeeding validator and async states. -/
theorem c4_getErrors_empty_on_success_witness :
    getErrors succeedingSchema sampleSyncState [PathSeg.str "name"] = [] ∧
    getErrorsC sampleAsyncState [PathSeg.str "name"] = [] ∧
    getErrorsC sampleAsyncSuccess [PathSeg.str "name"] = [] := by
  have h := c4_getErrors_empty_on_success Value Value
  exact ⟨h.1 succeedingSchema sampleSyncState sampleSyncState.data [PathSeg.str "name"] rfl,
    h.2.1 sampleAsyncState [PathSeg.str "name"] rfl,
    h.2.2 sampleAsyncSuccess Value.vNull [PathSeg.str "name"] rfl⟩

/-- C5: `reset()` is idempotent in both variants — a second reset produces
the same FormData (for the async variant given the JS object invariant
that keys are unique) — and every reset leaves DisplayErrors false and
ChangedAt null. -/
theorem c5_reset_idempotent (α : Type) :
    (∀ (initialData : Value) (st : SyncState),
        resetS initialData (resetS initialData st) = resetS initialData st) ∧
    (∀ (initialData : Value) (st : SyncState),
        (resetS initialData st).displayErrors = false ∧
        (resetS initialData st).changedAt = none) ∧
    (∀ (initialInput : Obj) (st : AsyncState α), (keys st.data).Nodup →
        resetC initialInput (resetC initialInput st) = resetC initialInput st) ∧
    (∀ (initialInput : Obj) (st : AsyncState α),
        (resetC initialInput st).displayErrors = false ∧
        (resetC initialInput st).changedAt = none) := by
  refine ⟨fun _ _ => rfl, fun _ _ => ⟨rfl, rfl⟩, ?_, fun _ _ => ⟨rfl, rfl⟩⟩
  intro initialInput st h
  simp [resetC, objAssign_idem initialInput h]

/-- Witness for C5 at a concrete snapshot and async state with unique
keys. -/
theorem c5_reset_idempotent_witness :
    resetC sampleInit (resetC sampleInit sampleAsyncState)
      = resetC sampleInit sampleAsyncState :=
  (c5_reset_idempotent Value).2.2.1 sampleInit sampleAsyncState (by decide)

/-- C6: sync construction deep-copies `initialData` into a
controller-owned FormData: the construction-time copy equals the caller's
value, no sequence of controller operations (data mutation, submit, reset,
toggle) ever changes the caller's `initialData`, and a reset after any
such sequence restores FormData to a value equal to the original
`initialData`. -/
theorem c6_sync_ownership {α : Type} (schema : Value → ParseResult α)
    (initialData : Value) (ops : List SyncOp) :
    (mkSync initialData).ctrl.data = initialData ∧
    (runOps schema (mkSync initialData) ops).callerInit = initialData ∧
    (runOp schema (runOps schema (mkSync initialData) ops) SyncOp.doReset).ctrl.data
      = initialData := by
  refine ⟨deepClone_id initialData, ?_, ?_⟩
  · rw [runOps_callerInit]; rfl
  · simp [runOp, resetS, runOps_callerInit, deepClone_id, mkSync]

/-- C7: the claim's first half holds — ChangedAt is null at construction
and after reset in both variants — but the code never assigns it on data
mutation: a `setData` leaves `changedAt` untouched, so `hasChanged` stays
false right after mutating freshly constructed data, contradicting the
declared "timestamp of the last time the form was changed". -/
theorem c7_changedAt_never_set (α : Type) :
    (∀ initialData : Value, (mkSync initialData).ctrl.changedAt = none) ∧
    (∀ (initialData : Value) (st : SyncState), (resetS initialData st).changedAt = none) ∧
    (∀ (initialInput : Obj) (st : AsyncState α), (resetC initialInput st).changedAt = none) ∧
    (∀ (schema : Value → ParseResult α) (w : SyncWorld) (v : Value),
        (runOp schema w (SyncOp.setData v)).ctrl.changedAt = w.ctrl.changedAt) ∧
    (∀ (schema : Value → ParseResult α) (initialData v : Value),
        hasChanged (runOp schema (mkSync initialData) (SyncOp.setData v)).ctrl = false) :=
  ⟨fun _ => rfl, fun _ _ => rfl, fun _ _ => rfl, fun _ _ _ => rfl, fun _ _ _ => rfl⟩

/-- C8 counterexample: overlapping validations are never cancelled, so a
stale resolution can move the status directly from `valid` to `invalid`
with no intervening `parsing`: dispatch a failing validation, dispatch a
succeeding one, let the second resolve (status `valid`), then let the
stale first resolve (status `invalid`). -/
theorem c8_race_counterexample :
    (astep (astep (astep initMachine (AEvent.mutate false)) (AEvent.mutate true))
        (AEvent.resolve 1)).status = Status.valid ∧
    (astep (astep (astep (astep initMachine (AEvent.mutate false)) (AEvent.mutate true))
        (AEvent.resolve 1)) (AEvent.resolve 0)).status = Status.invalid :=
  ⟨rfl, rfl⟩

/-- C8 (amended): Status starts as `parsing` on mount; every deep mutation
(including the immediate first run) sets it to `parsing`; every resolving
validation sets it to `valid` on success and `invalid` on failure; and the
"no other transitions" clause holds when no stale validation is in flight:
with an empty pending queue, a `valid` status never steps directly to
`invalid`. -/
theorem c8_status_transitions :
    initMachine.status = Status.parsing ∧
    (∀ (m : AsyncMachine) (o : Bool), (astep m (AEvent.mutate o)).status = Status.parsing) ∧
    (∀ (m : AsyncMachine) (i : Nat) (o : Bool), m.pending[i]? = some o →
        (astep m (AEvent.resolve i)).status
          = if o then Status.valid else Status.invalid) ∧
    (∀ (m : AsyncMachine) (i : Nat), m.pending[i]? = none →
        astep m (AEvent.resolve i) = m) ∧
    (∀ (m : AsyncMachine) (e : AEvent), m.status = Status.valid → m.pending = [] →
        (astep m e).status ≠ Status.invalid) := by
  refine ⟨rfl, fun m o => rfl, ?_, ?_, ?_⟩
  · intro m i o h; simp [astep, h]
  · intro m i h; simp [astep, h]
  · intro m e hv hp
    cases e with
    | mutate o => simp [astep]
    | resolve i => simp [astep, hp, hv]

/-- Witness for C8 (amended) at concrete machine states. -/
theorem c8_status_transitions_witness :
    (astep { status := Status.parsing, pending := [true] } (AEvent.resolve 0)).status
      = Status.valid ∧
    (astep { status := Status.valid, pending := [] } (AEvent.mutate false)).status
      ≠ Status.invalid := by
  constructor
  · have h := c8_status_transitions.2.2.1 { status := Status.parsing, pending := [true] } 0 true rfl
    simpa using h
  · exact c8_status_transitions.2.2.2.2 { status := Status.valid, pending := [] }
      (AEvent.mutate false) rfl rfl

/-- C9: the async `reset` shallow-assigns the construction-time snapshot
over the live data object, so any key absent from the snapshot keeps its
current value after reset, and in particular reset does not restore the
construction-time state when such keys exist. -/
theorem c9_async_reset_keeps_new_keys (α : Type) :
    (∀ (initialInput : Obj) (st : AsyncState α) (k : String), k ∉ keys initialInput →
        lookupKey (resetC initialInput st).data k = lookupKey st.data k) ∧
    (resetC sampleInit sampleAsyncState).data ≠ sampleInit := by
  constructor
  · intro initialInput st k h
    exact lookupKey_objAssign_of_not_mem st.data h
  · intro hc
    have hval : (resetC sampleInit sampleAsyncState).data
        = [("a", Value.vNum 1), ("b", Value.vNum 3)] := rfl
    rw [hval] at hc
    simp [sampleInit] at hc

/-- Witness for C9: the key `b`, added after construction and absent from
the snapshot, keeps its value across reset. -/
theorem c9_async_reset_keeps_new_keys_witness :
    lookupKey (resetC sampleInit sampleAsyncState).data "b"
      = lookupKey sampleAsyncState.data "b" :=
  (c9_async_reset_keeps_new_keys Value).1 sampleInit sampleAsyncState "b" (by decide)

/-- C10: with the validator a pure function (as the embedding makes it),
the fresh re-parse in the sync `submit` agrees with the cached
`parseResult`: `onSubmit` is invoked exactly when `isValid` holds at the
call, and the value passed to it is the cached result's success data. -/
theorem c10_submit_refines_parseResult {α : Type} (schema : Value → ParseResult α)
    (st : SyncState) :
    ((submit schema st).2.isSome = isValid schema st) ∧
    (∀ out : α, parseResult schema st = .success out → (submit schema st).2 = some out) := by
  constructor
  · cases h : schema st.data <;>
      simp [submit, isValid, parseResult, ParseResult.isSuccess, h]
  · intro out hout
    have h : schema st.data = .success out := hout
    simp [submit, h]

/-- Witness for C10 at a concrete succeeding validator. -/
theorem c10_submit_refines_parseResult_witness :
    (submit succeedingSchema sampleSyncState).2.isSome
      = isValid succeedingSchema sampleSyncState ∧
    (submit succeedingSchema sampleSyncState).2 = some sampleSyncState.data :=
  ⟨(c10_submit_refines_parseResult succeedingSchema sampleSyncState).1,
    (c10_submit_refines_parseResult succeedingSchema sampleSyncState).2
      sampleSyncState.data rfl⟩

end Form
